import Mathlib

/-!
Verification of the row-normalization and column-projection pipeline of the
thematic-sessions-export dashboard (src/js/reg-transform.js, reg-renderer.js,
reg-columns.js, columns.js), as a shallow embedding in Lean.

JavaScript's dynamically typed values are modelled by `JSValue`; records
(objects used as string-keyed maps) by association lists.  Numbers are carried
by their decimal lexeme (a JSON numeric literal or the display string of the
number); no claim here depends on floating-point arithmetic, only on whether a
number is zero (for truthiness) and on its display string.  A JavaScript
function that can throw is modelled with an `Option` result (`none` = a thrown
exception); functions that are total in the source are total here.
-/

set_option maxRecDepth 10000

/-- Model of a JavaScript runtime value as it can arrive from the backend:
`undef` is `undefined` (in particular the result of reading an absent
property), and `num s` carries the number's decimal lexeme. -/
inductive JSValue where
  | undef : JSValue
  | null : JSValue
  | bool : Bool → JSValue
  | num : String → JSValue
  | str : String → JSValue
  | arr : List JSValue → JSValue
  | obj : List (String × JSValue) → JSValue

/-- A JavaScript object used as a record: an association list from property
names to values (property insertion order preserved, keys unique in all
records built by the code under study). -/
abbrev JSObj := List (String × JSValue)

/-- Property read `o[k]` on an object: the stored value, or `undefined` when
the property is absent (models JavaScript property lookup for the plain data
objects this code manipulates). -/
def jsGet (o : JSObj) (k : String) : JSValue :=
  match o.find? (fun p => p.1 == k) with
  | some p => p.2
  | none => JSValue.undef

/-- Property read `v[k]` on an arbitrary value, for the organizer sub-field
names: only plain objects carry those properties; on primitives and arrays the
read yields `undefined` (none of the five sub-field names is a built-in
property of String, Number, Boolean or Array). -/
def jsIndex (v : JSValue) (k : String) : JSValue :=
  match v with
  | JSValue.obj fs => jsGet fs k
  | _ => JSValue.undef

/-- The digits of a numeric lexeme before any exponent marker. -/
def numMantissa : List Char → List Char
  | [] => []
  | c :: cs => if c == 'e' || c == 'E' then [] else c :: numMantissa cs

/-- Whether a numeric lexeme denotes the number zero (every mantissa digit is
`0`); used for JavaScript truthiness of numbers. -/
def numIsZero (s : String) : Bool :=
  (numMantissa s.data).all (fun c => !c.isDigit || c == '0')

/-- JavaScript truthiness: `undefined`, `null`, `false`, numeric zero and the
empty string are falsy; every other value (including all arrays and objects)
is truthy. -/
def truthy : JSValue → Bool
  | JSValue.undef => false
  | JSValue.null => false
  | JSValue.bool b => b
  | JSValue.num s => !numIsZero s
  | JSValue.str s => !(s == "")
  | JSValue.arr _ => true
  | JSValue.obj _ => true

/-- The loose inequality `v != null`: false exactly on `null` and
`undefined`. -/
def notNullish : JSValue → Bool
  | JSValue.null => false
  | JSValue.undef => false
  | _ => true

/-- The idiom `v || ""`: the value itself when truthy, else the empty
string. -/
def jsOr (v : JSValue) : JSValue :=
  if truthy v then v else JSValue.str ""

mutual

/-- JavaScript `String(v)` coercion for the values of this model: arrays
stringify as their elements joined with `","`, plain objects as
`"[object Object]"`. -/
def jsToString : JSValue → String
  | JSValue.undef => "undefined"
  | JSValue.null => "null"
  | JSValue.bool true => "true"
  | JSValue.bool false => "false"
  | JSValue.num s => s
  | JSValue.str s => s
  | JSValue.obj _ => "[object Object]"
  | JSValue.arr xs => jsJoin "," xs

/-- JavaScript `Array.prototype.join(sep)`: elements are stringified with
`String(·)` except that `null` and `undefined` elements become the empty
string. -/
def jsJoin : String → List JSValue → String
  | _, [] => ""
  | _, [x] =>
      (match x with
       | JSValue.null => ""
       | JSValue.undef => ""
       | v => jsToString v)
  | sep, x :: y :: ys =>
      (match x with
       | JSValue.null => ""
       | JSValue.undef => ""
       | v => jsToString v) ++ sep ++ jsJoin sep (y :: ys)

end

/-- The stringification of one array element inside `join`: `null` and
`undefined` become the empty string, anything else its `String(·)` form. -/
def jsElemStr : JSValue → String
  | JSValue.null => ""
  | JSValue.undef => ""
  | v => jsToString v

/-- Whitespace skipped by `JSON.parse` (the four JSON whitespace
characters). -/
def jsonWs (c : Char) : Bool :=
  c == ' ' || c == '\t' || c == '\n' || c == '\r'

/-- Whitespace removed by JavaScript `String.prototype.trim` (the common
members; the exotic Unicode space code points do not occur in this
development). -/
def jsTrimWs (c : Char) : Bool :=
  c == ' ' || c == '\t' || c == '\n' || c == '\r' || c == '\x0b' || c == '\x0c' || c == '\u00A0'

/-- Drop leading characters satisfying a predicate. -/
def dropLeading (p : Char → Bool) : List Char → List Char
  | [] => []
  | c :: cs => if p c then dropLeading p cs else c :: cs

/-- JavaScript `s.trim()`. -/
def jsTrim (s : String) : String :=
  String.mk (((dropLeading jsTrimWs ((dropLeading jsTrimWs s.data.reverse)).reverse)))

/-- Value of a hexadecimal digit, if any. -/
def hexVal (c : Char) : Option Nat :=
  if '0' ≤ c ∧ c ≤ '9' then some (c.toNat - '0'.toNat)
  else if 'a' ≤ c ∧ c ≤ 'f' then some (c.toNat - 'a'.toNat + 10)
  else if 'A' ≤ c ∧ c ≤ 'F' then some (c.toNat - 'A'.toNat + 10)
  else none

/-- Body of a JSON string literal (after the opening quote): returns the
decoded characters and the input remaining after the closing quote.  The JSON
escapes are decoded; an unescaped control character, an unknown escape or a
missing closing quote is a parse failure, as in `JSON.parse`. -/
def parseJStringBody : List Char → Option (List Char × List Char)
  | [] => none
  | '"' :: rest => some ([], rest)
  | '\\' :: esc =>
      match esc with
      | '"' :: rest => (parseJStringBody rest).map (fun p => ('"' :: p.1, p.2))
      | '\\' :: rest => (parseJStringBody rest).map (fun p => ('\\' :: p.1, p.2))
      | '/' :: rest => (parseJStringBody rest).map (fun p => ('/' :: p.1, p.2))
      | 'b' :: rest => (parseJStringBody rest).map (fun p => ('\x08' :: p.1, p.2))
      | 'f' :: rest => (parseJStringBody rest).map (fun p => ('\x0c' :: p.1, p.2))
      | 'n' :: rest => (parseJStringBody rest).map (fun p => ('\n' :: p.1, p.2))
      | 'r' :: rest => (parseJStringBody rest).map (fun p => ('\r' :: p.1, p.2))
      | 't' :: rest => (parseJStringBody rest).map (fun p => ('\t' :: p.1, p.2))
      | 'u' :: h1 :: h2 :: h3 :: h4 :: rest =>
          (match hexVal h1, hexVal h2, hexVal h3, hexVal h4 with
           | some a, some b, some c, some d =>
               (parseJStringBody rest).map
                 (fun p => (Char.ofNat (((a * 16 + b) * 16 + c) * 16 + d) :: p.1, p.2))
           | _, _, _, _ => none)
      | _ => none
  | c :: rest =>
      if c.toNat < 32 then none
      else (parseJStringBody rest).map (fun p => (c :: p.1, p.2))

/-- Split off a maximal run of decimal digits. -/
def spanDigits : List Char → List Char × List Char
  | [] => ([], [])
  | c :: cs =>
      if c.isDigit then
        let p := spanDigits cs
        (c :: p.1, p.2)
      else ([], c :: cs)

/-- The integer part of a JSON number: `0`, or a nonzero digit followed by
digits (no leading zeros). -/
def parseIntPart : List Char → Option (List Char × List Char)
  | [] => none
  | c :: cs =>
      if c == '0' then some (['0'], cs)
      else if c.isDigit then
        let p := spanDigits cs
        some (c :: p.1, p.2)
      else none

/-- The optional fraction part `.digits` of a JSON number. -/
def parseFracPart : List Char → List Char × List Char
  | '.' :: cs =>
      match spanDigits cs with
      | ([], _) => ([], '.' :: cs)
      | (ds, rest) => ('.' :: ds, rest)
  | cs => ([], cs)

/-- The optional exponent part of a JSON number. -/
def parseExpPart : List Char → List Char × List Char
  | e :: cs =>
      if e == 'e' || e == 'E' then
        match cs with
        | s :: cs2 =>
            if s == '+' || s == '-' then
              match spanDigits cs2 with
              | ([], _) => ([], e :: cs)
              | (ds, rest) => (e :: s :: ds, rest)
            else
              match spanDigits cs with
              | ([], _) => ([], e :: cs)
              | (ds, rest) => (e :: ds, rest)
        | [] => ([], [e])
      else ([], e :: cs)
  | [] => ([], [])

/-- A JSON numeric literal: optional minus sign, integer part, optional
fraction, optional exponent.  Returns the lexeme and the remaining input. -/
def parseNumberLex (input : List Char) : Option (List Char × List Char) :=
  let (sign, afterSign) :=
    match input with
    | '-' :: cs => (['-'], cs)
    | cs => (([] : List Char), cs)
  match parseIntPart afterSign with
  | none => none
  | some (ip, rest1) =>
      let (fp, rest2) := parseFracPart rest1
      let (ep, rest3) := parseExpPart rest2
      some (sign ++ ip ++ fp ++ ep, rest3)

/-- Strict JSON parse failure, modelling the exception thrown by
`JSON.parse`. -/
def jsonWsDrop (cs : List Char) : List Char :=
  dropLeading jsonWs cs

/-- Record a parsed object member the way JavaScript object construction
does: a repeated key keeps its first position but the later value wins.
Here `fs` is the (already deduplicated) tail of the member list and `v` the
value of the earlier occurrence of `k`. -/
def objCombine (k : String) (v : JSValue) (fs : List (String × JSValue)) :
    List (String × JSValue) :=
  match fs.find? (fun p => p.1 == k) with
  | some p => (k, p.2) :: fs.filter (fun q => !(q.1 == k))
  | none => (k, v) :: fs

/-- The three mutually recursive parsing functions of a JSON recursive-descent
parser, at one fuel level: a value, the members of an array after `[`, and the
members of an object after a left brace. -/
structure JParsers where
  val : List Char → Option (JSValue × List Char)
  items : List Char → Option (List JSValue × List Char)
  fields : List Char → Option (List (String × JSValue) × List Char)

/-- Fuel-indexed JSON parser; at fuel `0` everything fails, and each level
delegates nested constructs to the previous level.  Structured this way the
parser is structurally recursive, hence its applications reduce
definitionally. -/
def jsonStep : Nat → JParsers
  | 0 => ⟨fun _ => none, fun _ => none, fun _ => none⟩
  | n + 1 =>
    let P := jsonStep n
    { val := fun input =>
        match jsonWsDrop input with
        | [] => none
        | c :: cs =>
          if c == 'n' then
            match cs with
            | 'u' :: 'l' :: 'l' :: rest => some (JSValue.null, rest)
            | _ => none
          else if c == 't' then
            match cs with
            | 'r' :: 'u' :: 'e' :: rest => some (JSValue.bool true, rest)
            | _ => none
          else if c == 'f' then
            match cs with
            | 'a' :: 'l' :: 's' :: 'e' :: rest => some (JSValue.bool false, rest)
            | _ => none
          else if c == '"' then
            (parseJStringBody cs).map (fun p => (JSValue.str (String.mk p.1), p.2))
          else if c == '[' then
            match jsonWsDrop cs with
            | ']' :: rest => some (JSValue.arr [], rest)
            | cs2 => (P.items cs2).map (fun p => (JSValue.arr p.1, p.2))
          else if c == '\x7b' then
            match jsonWsDrop cs with
            | '\x7d' :: rest => some (JSValue.obj [], rest)
            | cs2 => (P.fields cs2).map (fun p => (JSValue.obj p.1, p.2))
          else
            (parseNumberLex (c :: cs)).map (fun p => (JSValue.num (String.mk p.1), p.2)),
      items := fun input =>
        match P.val input with
        | none => none
        | some (v, rest) =>
          match jsonWsDrop rest with
          | ',' :: rest2 => (P.items rest2).map (fun p => (v :: p.1, p.2))
          | ']' :: rest2 => some ([v], rest2)
          | _ => none,
      fields := fun input =>
        match jsonWsDrop input with
        | '"' :: cs =>
          (match parseJStringBody cs with
           | none => none
           | some (k, rest) =>
             match jsonWsDrop rest with
             | ':' :: rest2 =>
               (match P.val rest2 with
                | none => none
                | some (v, rest3) =>
                  match jsonWsDrop rest3 with
                  | ',' :: rest4 =>
                      (P.fields rest4).map
                        (fun p => (objCombine (String.mk k) v p.1, p.2))
                  | '\x7d' :: rest4 => some ([(String.mk k, v)], rest4)
                  | _ => none)
             | _ => none)
        | _ => none }

/-- Model of `JSON.parse`: parse one JSON value and require that only
whitespace remains; `none` models the thrown `SyntaxError`. -/
def jsonParse (s : String) : Option JSValue :=
  match (jsonStep (2 * s.data.length + 4)).val s.data with
  | some (v, rest) => if jsonWsDrop rest = [] then some v else none
  | none => none

/-- Convert a boolean DB value to a human-readable Yes / No string
(reg-transform.js `boolStr`): strict equality with `true` and `false`, any
other value gives the empty string. -/
def boolStr : JSValue → String
  | JSValue.bool true => "Yes"
  | JSValue.bool false => "No"
  | _ => ""

/-- Split a list of characters on `/`, as `String.prototype.split("/")` does
(adjacent separators and a trailing separator produce empty segments; the
result is never empty). -/
def splitSlash : List Char → List (List Char)
  | [] => [[]]
  | c :: cs =>
      match splitSlash cs with
      | [] => [[c]]
      | g :: gs => if c == '/' then [] :: g :: gs else (c :: g) :: gs

/-- The segments of a storage path after turning backslashes into forward
slashes and splitting on `/` (the common core of `fileLabel` and
`storageBasename` in the source). -/
def pathSegments (s : String) : List String :=
  (splitSlash (s.data.map (fun c => if c == '\\' then '/' else c))).map String.mk

/-- The last path segment of a non-empty storage path string, with the source
fallback `parts[parts.length - 1] || filePath`: when the final segment is
empty, the whole path is returned. -/
def lastSegmentOr (s : String) : String :=
  let last := (pathSegments s).getLastD ""
  if last == "" then s else last

/-- Extract a short display label from a storage `file_path` value
(reg-transform.js `fileLabel`).  A falsy argument gives the empty string; a
truthy string is split into segments; a truthy non-string argument makes the
source call `.replace` on a value that has no such method, throwing a
`TypeError`, modelled by `none`. -/
def fileLabel (filePath : JSValue) : Option String :=
  if !truthy filePath then some ""
  else
    match filePath with
    | JSValue.str s => some (lastSegmentOr s)
    | _ => none

/-- Ordered list of sub-fields inside every organizer JSON blob
(reg-renderer.js `ORGANIZER_FIELDS`). -/
def ORGANIZER_FIELDS : List String :=
  ["email", "country", "lastName", "firstName", "affiliation"]

/-- Flatten a single organizer JSON blob (or already-parsed object) into a set
of prefixed flat keys (reg-renderer.js `flattenOrganizer`); `pfx` is the
source's `prefix` parameter.  A `null`/`undefined` blob, a string that is
empty after trimming or fails to parse as JSON, and a non-string primitive all
leave `parsed` null, so every sub-field becomes the empty string; otherwise
each sub-field with a non-nullish value is coerced with `String(·)`. -/
def flattenOrganizer (blob : JSValue) (pfx : String) : List (String × String) :=
  let parsed : JSValue :=
    match blob with
    | JSValue.str s =>
        if (jsTrim s).data.length > 0 then
          match jsonParse (jsTrim s) with
          | some v => v
          | none => JSValue.null
        else JSValue.null
    | JSValue.arr xs => JSValue.arr xs
    | JSValue.obj fs => JSValue.obj fs
    | _ => JSValue.null
  ORGANIZER_FIELDS.map (fun k =>
    (pfx ++ "_" ++ k,
     if truthy parsed && notNullish (jsIndex parsed k) then jsToString (jsIndex parsed k)
     else ""))

/-- The test `trimmed.charAt(0) === "["`: `charAt(0)` of the empty string is
`""`, so this is false for the empty string. -/
def headIsBracket (s : String) : Bool :=
  match s.data with
  | c :: _ => c == '['
  | [] => false

/-- Normalise the `session_keywords` value (reg-renderer.js
`normaliseKeywords`): an array is joined with `", "`; a string whose trimmed
form starts with `[` is JSON-parsed and joined when that yields an array,
otherwise the original string is returned; any other string is returned
unmodified; nullish values give the empty string; other values get their
generic string coercion. -/
def normaliseKeywords : JSValue → String
  | JSValue.null => ""
  | JSValue.undef => ""
  | JSValue.arr xs => jsJoin ", " xs
  | JSValue.str s =>
      if headIsBracket (jsTrim s) then
        (match jsonParse (jsTrim s) with
         | some (JSValue.arr xs) => jsJoin ", " xs
         | _ => s)
      else s
  | v => jsToString v

/-- Transform a single raw submission row into a flat display-ready object
(reg-renderer.js `transformRow`).  All operations used are total, so this
function is total. -/
def transformRow (raw : JSObj) : JSObj :=
  [("id", jsOr (jsGet raw "id")),
   ("created_at", jsOr (jsGet raw "created_at")),
   ("locale", jsOr (jsGet raw "locale"))]
  ++ (flattenOrganizer (jsGet raw "organizer_primary") "organizer_primary").map
       (fun p => (p.1, JSValue.str p.2))
  ++ (flattenOrganizer (jsGet raw "organizer_secondary") "organizer_secondary").map
       (fun p => (p.1, JSValue.str p.2))
  ++ (flattenOrganizer (jsGet raw "organizer_tertiary") "organizer_tertiary").map
       (fun p => (p.1, JSValue.str p.2))
  ++ [("session_title", jsOr (jsGet raw "session_title")),
      ("session_topic", jsOr (jsGet raw "session_topic")),
      ("session_summary", jsOr (jsGet raw "session_summary")),
      ("session_keywords", JSValue.str (normaliseKeywords (jsGet raw "session_keywords"))),
      ("additional_comments", jsOr (jsGet raw "additional_comments")),
      ("status", jsOr (jsGet raw "status"))]

/-- Transform an entire array of raw submission rows (reg-renderer.js
`transformRows`, a loop pushing `transformRow(rawRows[i])` in order). -/
def transformRows (rawRows : List JSObj) : List JSObj :=
  rawRows.map transformRow

/-- Transform one raw registration row (reg-transform.js
`transformRegistration`); all operations used are total. -/
def transformRegistration (raw : JSObj) : JSObj :=
  [("id", jsOr (jsGet raw "id")),
   ("created_at", jsOr (jsGet raw "created_at")),
   ("updated_at", jsOr (jsGet raw "updated_at")),
   ("first_name", jsOr (jsGet raw "first_name")),
   ("last_name", jsOr (jsGet raw "last_name")),
   ("email", jsOr (jsGet raw "email")),
   ("affiliation", jsOr (jsGet raw "affiliation")),
   ("country", jsOr (jsGet raw "country")),
   ("registration_type", jsOr (jsGet raw "registration_type")),
   ("abstract_intent", jsOr (jsGet raw "abstract_intent")),
   ("payment_confirmed", JSValue.str (boolStr (jsGet raw "payment_confirmed"))),
   ("mailing_consent", JSValue.str (boolStr (jsGet raw "mailing_consent"))),
   ("gdpr_consent", JSValue.str (boolStr (jsGet raw "gdpr_consent")))]

/-- Transform one raw abstract row (reg-transform.js `transformAbstract`).
The `has_file` field is `raw.file_path ? fileLabel(raw.file_path) : ""`; a
truthy non-string `file_path` makes `fileLabel` throw, so the result is
`none` in that case. -/
def transformAbstract (raw : JSObj) : Option JSObj :=
  match (if truthy (jsGet raw "file_path") then fileLabel (jsGet raw "file_path") else some "") with
  | none => none
  | some hasFile =>
      some
        [("id", jsOr (jsGet raw "id")),
         ("created_at", jsOr (jsGet raw "created_at")),
         ("first_name", jsOr (jsGet raw "first_name")),
         ("last_name", jsOr (jsGet raw "last_name")),
         ("email", jsOr (jsGet raw "email")),
         ("affiliation", jsOr (jsGet raw "affiliation")),
         ("title", jsOr (jsGet raw "title")),
         ("session", jsOr (jsGet raw "session")),
         ("co_authors", jsOr (jsGet raw "co_authors")),
         ("abstract_text", jsOr (jsGet raw "abstract_text")),
         ("notes", jsOr (jsGet raw "notes")),
         ("has_file", JSValue.str hasFile),
         ("_file_path", jsOr (jsGet raw "file_path"))]

/-- Transform one raw payment-receipt row (reg-transform.js
`transformPayment`); same `file_path` handling as `transformAbstract`. -/
def transformPayment (raw : JSObj) : Option JSObj :=
  match (if truthy (jsGet raw "file_path") then fileLabel (jsGet raw "file_path") else some "") with
  | none => none
  | some hasFile =>
      some
        [("id", jsOr (jsGet raw "id")),
         ("created_at", jsOr (jsGet raw "created_at")),
         ("email", jsOr (jsGet raw "email")),
         ("receipt_type", jsOr (jsGet raw "receipt_type")),
         ("notes", jsOr (jsGet raw "notes")),
         ("has_file", JSValue.str hasFile),
         ("_file_path", jsOr (jsGet raw "file_path"))]

/-- Batch helper `transformRegistrations` (reg-transform.js):
`rows.map(transformRegistration)`. -/
def transformRegistrations (rows : List JSObj) : List JSObj :=
  rows.map transformRegistration

/-- Batch helper `transformAbstracts` (reg-transform.js):
`rows.map(transformAbstract)`; the map is evaluated left to right and a
thrown exception aborts it, modelled by a `none` overall result. -/
def transformAbstracts : List JSObj → Option (List JSObj)
  | [] => some []
  | r :: rs =>
      match transformAbstract r, transformAbstracts rs with
      | some o, some os => some (o :: os)
      | _, _ => none

/-- Batch helper `transformPayments` (reg-transform.js):
`rows.map(transformPayment)` with the same exception model. -/
def transformPayments : List JSObj → Option (List JSObj)
  | [] => some []
  | r :: rs =>
      match transformPayment r, transformPayments rs with
      | some o, some os => some (o :: os)
      | _, _ => none

/-- Column definition (reg-columns.js / columns.js `ColumnDef`): key, label,
and the optional `wrap`, `excelOnly`, `uiOnly` and `bucket` properties
(absent boolean flags behave as `false`). -/
structure ColumnDef where
  key : String
  label : String
  wrap : Bool := false
  excelOnly : Bool := false
  uiOnly : Bool := false
  bucket : Option String := none
deriving DecidableEq

/-- Column definitions for the submissions table (columns.js
`DISPLAY_COLUMNS`). -/
def DISPLAY_COLUMNS : List ColumnDef :=
  [{ key := "id", label := "ID" },
   { key := "created_at", label := "Created At" },
   { key := "locale", label := "Locale" },
   { key := "organizer_primary_firstName", label := "Primary: First Name" },
   { key := "organizer_primary_lastName", label := "Primary: Last Name" },
   { key := "organizer_primary_email", label := "Primary: Email" },
   { key := "organizer_primary_affiliation", label := "Primary: Affiliation", wrap := true },
   { key := "organizer_primary_country", label := "Primary: Country" },
   { key := "organizer_secondary_firstName", label := "Secondary: First Name" },
   { key := "organizer_secondary_lastName", label := "Secondary: Last Name" },
   { key := "organizer_secondary_email", label := "Secondary: Email" },
   { key := "organizer_secondary_affiliation", label := "Secondary: Affiliation", wrap := true },
   { key := "organizer_secondary_country", label := "Secondary: Country" },
   { key := "organizer_tertiary_firstName", label := "Tertiary: First Name" },
   { key := "organizer_tertiary_lastName", label := "Tertiary: Last Name" },
   { key := "organizer_tertiary_email", label := "Tertiary: Email" },
   { key := "organizer_tertiary_affiliation", label := "Tertiary: Affiliation", wrap := true },
   { key := "organizer_tertiary_country", label := "Tertiary: Country" },
   { key := "session_title", label := "Session Title", wrap := true },
   { key := "session_topic", label := "Session Topic", wrap := true },
   { key := "session_summary", label := "Session Summary", wrap := true },
   { key := "session_keywords", label := "Keywords", wrap := true },
   { key := "additional_comments", label := "Comments", wrap := true },
   { key := "status", label := "Status" }]

/-- Column definitions for the registrations table (reg-columns.js
`REGISTRATION_COLUMNS`). -/
def REGISTRATION_COLUMNS : List ColumnDef :=
  [{ key := "id", label := "ID" },
   { key := "created_at", label := "Submitted At" },
   { key := "updated_at", label := "Updated At" },
   { key := "first_name", label := "First Name" },
   { key := "last_name", label := "Last Name" },
   { key := "email", label := "Email" },
   { key := "affiliation", label := "Affiliation", wrap := true },
   { key := "country", label := "Country" },
   { key := "registration_type", label := "Type" },
   { key := "abstract_intent", label := "Abstract Intent" },
   { key := "payment_confirmed", label := "Payment Confirmed" },
   { key := "mailing_consent", label := "Mailing Consent" },
   { key := "gdpr_consent", label := "GDPR Consent" }]

/-- Column definitions for the abstracts table (reg-columns.js
`ABSTRACT_COLUMNS`). -/
def ABSTRACT_COLUMNS : List ColumnDef :=
  [{ key := "id", label := "ID" },
   { key := "created_at", label := "Submitted At" },
   { key := "first_name", label := "First Name" },
   { key := "last_name", label := "Last Name" },
   { key := "email", label := "Email" },
   { key := "affiliation", label := "Affiliation", wrap := true },
   { key := "title", label := "Title", wrap := true },
   { key := "session", label := "Session", wrap := true },
   { key := "co_authors", label := "Co-Authors", wrap := true },
   { key := "abstract_text", label := "Abstract Text", wrap := true },
   { key := "has_file", label := "File", uiOnly := true, bucket := some "abstracts" },
   { key := "_file_path", label := "File Path (ZIP)", excelOnly := true }]

/-- Column definitions for the payment-receipts table (reg-columns.js
`PAYMENT_COLUMNS`). -/
def PAYMENT_COLUMNS : List ColumnDef :=
  [{ key := "id", label := "ID" },
   { key := "created_at", label := "Submitted At" },
   { key := "email", label := "Email" },
   { key := "receipt_type", label := "Receipt Type" },
   { key := "notes", label := "Notes", wrap := true },
   { key := "has_file", label := "File", uiOnly := true, bucket := some "payment-receipts" },
   { key := "_file_path", label := "File Path (ZIP)", excelOnly := true }]

/-- Return only the columns meant for the UI table (reg-columns.js
`uiColumns`). -/
def uiColumns (cols : List ColumnDef) : List ColumnDef :=
  cols.filter (fun c => !c.excelOnly)

/-- Return only the columns meant for Excel export (reg-columns.js
`excelColumns`). -/
def excelColumns (cols : List ColumnDef) : List ColumnDef :=
  cols.filter (fun c => !c.uiOnly)

/-- Raw bytes of a downloaded attachment. -/
abbrev Bytes := List Nat

/-- The world one `fetchStorageFile` call runs against: the signed-URL request
errors, or the subsequent fetch throws, or it produces a response with an `ok`
flag, status and body. -/
inductive FetchWorld where
  | signedUrlError (message : String)
  | fetchException
  | response (ok : Bool) (status : Nat) (body : Bytes)

/-- Generate a signed URL for a private storage file and download it
(reg-renderer.js zip-export `fetchStorageFile`): any failure — signed-URL
error, thrown exception, or a non-OK HTTP response — yields `null`
(here `none`); an OK response yields its body bytes. -/
def fetchStorageFile : FetchWorld → Option Bytes
  | FetchWorld.signedUrlError _ => none
  | FetchWorld.fetchException => none
  | FetchWorld.response ok _ body => if ok then some body else none

/-- Extract just the basename (last segment) from a storage path
(zip-export `storageBasename`). -/
def storageBasename (filePath : String) : String :=
  lastSegmentOr filePath

/-- Characters kept unchanged by `safeEmail` (the regex class
`[a-zA-Z0-9._+-]`). -/
def emailCharOk (c : Char) : Bool :=
  ('a' ≤ c && c ≤ 'z') || ('A' ≤ c && c ≤ 'Z') || ('0' ≤ c && c ≤ '9') ||
    c == '.' || c == '_' || c == '+' || c == '-'

/-- First pass of `safeEmail`: `.replace(/@/g, "_at_")`. -/
def replaceAtSign : List Char → List Char
  | [] => []
  | c :: cs =>
      if c == '@' then '_' :: 'a' :: 't' :: '_' :: replaceAtSign cs
      else c :: replaceAtSign cs

/-- Second pass of `safeEmail`: `.replace(/[^a-zA-Z0-9._+-]/g, "_")`. -/
def replaceBadChars : List Char → List Char
  | [] => []
  | c :: cs => (if emailCharOk c then c else '_') :: replaceBadChars cs

/-- Sanitise an email address for use as a folder/file name (zip-export
`safeEmail`): `(email || "unknown")` then the two global replacements. -/
def safeEmail (email : String) : String :=
  String.mk (replaceBadChars (replaceAtSign (if email == "" then "unknown" else email).data))

/-- Derive a flat filename for abstracts: email + original basename
(zip-export `zipFilename`). -/
def zipFilename (email filePath : String) : String :=
  safeEmail email ++ "_" ++ storageBasename filePath

/-- Content of one entry of the generated archive. -/
inductive ZipContent where
  | text (s : String)
  | bin (b : Bytes)
deriving DecidableEq

/-- One entry of the generated archive: full path inside the archive plus
content. -/
structure ZipEntry where
  path : String
  content : ZipContent
deriving DecidableEq

/-- A transformed row as seen by the ZIP export loop, with the two fields the
loop reads; `filePath` is the row's `_file_path` and both are strings, as
produced by the transforms from string-typed storage columns. -/
structure DlRow where
  email : String
  filePath : String
deriving DecidableEq

/-- One attachment-download loop of `downloadZip`: for each row, fetch its
file; on success append an archive entry named by `entryName`, on failure
append `failName` to the failure list, and in both cases continue with the
remaining rows. -/
def attachmentLoop (fetchOne : DlRow → Option Bytes) (entryName failName : DlRow → String) :
    List DlRow → List ZipEntry × List String → List ZipEntry × List String
  | [], acc => acc
  | r :: rs, acc =>
      match fetchOne r with
      | some b =>
          attachmentLoop fetchOne entryName failName rs
            (acc.1 ++ [⟨entryName r, ZipContent.bin b⟩], acc.2)
      | none =>
          attachmentLoop fetchOne entryName failName rs (acc.1, acc.2 ++ [failName r])

/-- The failure manifest text written to `DOWNLOAD_ERRORS.txt` (zip-export
`downloadZip`). -/
def errorNote (failedFiles : List String) : String :=
  "The following files could not be downloaded (storage permission or network issue):\n\n"
    ++ String.intercalate "\n" failedFiles

/-- State of the archive after the abstracts loop of `downloadZip`: the Excel
workbook entry, then one flat `abstracts/<zipFilename>` entry per abstract
row with a truthy `_file_path` whose fetch succeeded, failures recorded as
`abstracts/<raw path>`. -/
def absLoopRes (world : String → String → FetchWorld) (xlsx : Bytes)
    (abstracts : List DlRow) : List ZipEntry × List String :=
  attachmentLoop (fun r => fetchStorageFile (world "abstracts" r.filePath))
    (fun r => "abstracts/" ++ zipFilename r.email r.filePath)
    (fun r => "abstracts/" ++ r.filePath)
    (abstracts.filter (fun r => !(r.filePath == "")))
    ([⟨"conference_data.xlsx", ZipContent.bin xlsx⟩], [])

/-- State of the archive after the payment-receipts loop of `downloadZip`:
receipts nested one folder per sanitized owner email,
`payment_receipts/<safeEmail>/<basename>`. -/
def payLoopRes (world : String → String → FetchWorld) (xlsx : Bytes)
    (abstracts payments : List DlRow) : List ZipEntry × List String :=
  attachmentLoop (fun r => fetchStorageFile (world "payment-receipts" r.filePath))
    (fun r => "payment_receipts/" ++ safeEmail r.email ++ "/" ++ storageBasename r.filePath)
    (fun r => "payment_receipts/" ++ safeEmail r.email ++ "/" ++ r.filePath)
    (payments.filter (fun r => !(r.filePath == "")))
    (absLoopRes world xlsx abstracts)

/-- The archive contents built by `downloadZip` (zip-export), modelled over a
`world` giving the outcome of each storage fetch (bucket, path): the two
attachment loops over the rows with truthy `_file_path`, and finally a
`DOWNLOAD_ERRORS.txt` manifest exactly when some download failed.  Returns
the entries together with the `failedFiles` list. -/
def downloadZipEntries (world : String → String → FetchWorld) (xlsx : Bytes)
    (abstracts payments : List DlRow) : List ZipEntry × List String :=
  if (payLoopRes world xlsx abstracts payments).2 == [] then
    payLoopRes world xlsx abstracts payments
  else
    ((payLoopRes world xlsx abstracts payments).1
        ++ [⟨"DOWNLOAD_ERRORS.txt",
             ZipContent.text (errorNote (payLoopRes world xlsx abstracts payments).2)⟩],
     (payLoopRes world xlsx abstracts payments).2)

/-- Modelled from the claim under examination (C9), for comparison with the
source's `safeEmail`: per-character sanitization replacing each `@` by
`_at_` and every other character outside `[A-Za-z0-9._+-]` by `_`. -/
def safeEmailSpec (email : String) : String :=
  String.mk (email.data.foldr
    (fun c acc =>
      (if c == '@' then ['_', 'a', 't', '_'] else if emailCharOk c then [c] else ['_']) ++ acc)
    [])

/-- A concrete fetch world for witnesses: every download of the path
`bad.pdf` throws during fetch, every other download succeeds with a one-byte
body. -/
def demoWorld : String → String → FetchWorld :=
  fun _ p => if p == "bad.pdf" then FetchWorld.fetchException else FetchWorld.response true 200 [7]

/-- Helper: the `v || ""` idiom never yields `undefined`. -/
theorem jsOr_ne_undef (v : JSValue) : jsOr v ≠ JSValue.undef := by
  unfold jsOr
  split
  · next htr =>
      intro h
      subst h
      simp [truthy] at htr
  · exact fun h => JSValue.noConfusion h

/-- Helper: a key that occurs in a record all of whose values differ from
`undefined` reads back a value different from `undefined`. -/
theorem jsGet_ne_undef_of (o : JSObj) (k : String)
    (hk : k ∈ o.map Prod.fst) (hv : ∀ p ∈ o, p.2 ≠ JSValue.undef) :
    jsGet o k ≠ JSValue.undef := by
  unfold jsGet
  cases hfind : o.find? (fun p => p.1 == k) with
  | none =>
      exfalso
      rw [List.find?_eq_none] at hfind
      obtain ⟨p, hp, hpk⟩ := List.mem_map.mp hk
      exact hfind p hp (by simp [hpk])
  | some p => exact hv p (List.mem_of_find?_eq_some hfind)

/-- C5: `uiColumns` keeps exactly the columns not flagged `excelOnly`, and
`excelColumns` exactly the columns not flagged `uiOnly`; both projections are
sublists of the master list (a stable filter, preserving relative order), an
export-only column never appears in the UI projection, a ui-only column never
appears in the export projection, and an unflagged column appears in both. -/
theorem uiColumns_excelColumns_stable_filter (cols : List ColumnDef) :
    (∀ c ∈ uiColumns cols, c.excelOnly = false)
  ∧ (∀ c ∈ cols, c.excelOnly = false → c ∈ uiColumns cols)
  ∧ (uiColumns cols).Sublist cols
  ∧ (∀ c ∈ excelColumns cols, c.uiOnly = false)
  ∧ (∀ c ∈ cols, c.uiOnly = false → c ∈ excelColumns cols)
  ∧ (excelColumns cols).Sublist cols
  ∧ (∀ c ∈ cols, c.excelOnly = false → c.uiOnly = false →
      c ∈ uiColumns cols ∧ c ∈ excelColumns cols) := by
  unfold uiColumns excelColumns
  refine ⟨?_, ?_, ?_, ?_, ?_, ?_, ?_⟩
  · intro c hc
    have h2 := (List.mem_filter.mp hc).2
    simpa using h2
  · intro c hc hflag
    exact List.mem_filter.mpr ⟨hc, by simp [hflag]⟩
  · exact List.filter_sublist cols
  · intro c hc
    have h2 := (List.mem_filter.mp hc).2
    simpa using h2
  · intro c hc hflag
    exact List.mem_filter.mpr ⟨hc, by simp [hflag]⟩
  · exact List.filter_sublist cols
  · intro c hc h1 h2
    exact ⟨List.mem_filter.mpr ⟨hc, by simp [h1]⟩, List.mem_filter.mpr ⟨hc, by simp [h2]⟩⟩

/-- Witness for C5 at the abstracts column list: the projections are stable
filters and the unflagged ID column survives into both. -/
theorem uiColumns_excelColumns_stable_filter_witness :
    (uiColumns ABSTRACT_COLUMNS).Sublist ABSTRACT_COLUMNS
  ∧ ({ key := "id", label := "ID" } : ColumnDef) ∈ uiColumns ABSTRACT_COLUMNS
  ∧ ({ key := "id", label := "ID" } : ColumnDef) ∈ excelColumns ABSTRACT_COLUMNS := by
  have h := uiColumns_excelColumns_stable_filter ABSTRACT_COLUMNS
  have hm := h.2.2.2.2.2.2 { key := "id", label := "ID" } (by decide) rfl rfl
  exact ⟨h.2.2.1, hm.1, hm.2⟩

/-- C2 fails as stated: the code sends every falsy scalar value, not only
null/undefined/absent ones, to the empty string; at a registration whose
`first_name` is the number `0` the output field is `""` although the value's
human-readable string form is `"0"`. -/
theorem transformRegistration_falsy_counterexample :
    jsGet (transformRegistration [("first_name", JSValue.num "0")]) "first_name" = JSValue.str ""
  ∧ jsToString (JSValue.num "0") ≠ "" := by
  constructor
  · rfl
  · rw [jsToString.eq_def]
    decide

/-- C2 amended: each non-boolean scalar field of `transformRegistration` is
the raw value itself when that value is truthy and the empty string otherwise
(hence also for the falsy non-nullish values `false`, numeric zero and `""`);
the three boolean fields go through `boolStr`, which maps `true` to `"Yes"`,
`false` to `"No"` and every other value — enumerated by constructor — to
`""`. -/
theorem transformRegistration_field_coercion (raw : JSObj) :
    (jsGet (transformRegistration raw) "id"
      = (if truthy (jsGet raw "id") then jsGet raw "id" else JSValue.str ""))
  ∧ (jsGet (transformRegistration raw) "created_at"
      = (if truthy (jsGet raw "created_at") then jsGet raw "created_at" else JSValue.str ""))
  ∧ (jsGet (transformRegistration raw) "updated_at"
      = (if truthy (jsGet raw "updated_at") then jsGet raw "updated_at" else JSValue.str ""))
  ∧ (jsGet (transformRegistration raw) "first_name"
      = (if truthy (jsGet raw "first_name") then jsGet raw "first_name" else JSValue.str ""))
  ∧ (jsGet (transformRegistration raw) "last_name"
      = (if truthy (jsGet raw "last_name") then jsGet raw "last_name" else JSValue.str ""))
  ∧ (jsGet (transformRegistration raw) "email"
      = (if truthy (jsGet raw "email") then jsGet raw "email" else JSValue.str ""))
  ∧ (jsGet (transformRegistration raw) "affiliation"
      = (if truthy (jsGet raw "affiliation") then jsGet raw "affiliation" else JSValue.str ""))
  ∧ (jsGet (transformRegistration raw) "country"
      = (if truthy (jsGet raw "country") then jsGet raw "country" else JSValue.str ""))
  ∧ (jsGet (transformRegistration raw) "registration_type"
      = (if truthy (jsGet raw "registration_type") then jsGet raw "registration_type" else JSValue.str ""))
  ∧ (jsGet (transformRegistration raw) "abstract_intent"
      = (if truthy (jsGet raw "abstract_intent") then jsGet raw "abstract_intent" else JSValue.str ""))
  ∧ (jsGet (transformRegistration raw) "payment_confirmed"
      = JSValue.str (boolStr (jsGet raw "payment_confirmed")))
  ∧ (jsGet (transformRegistration raw) "mailing_consent"
      = JSValue.str (boolStr (jsGet raw "mailing_consent")))
  ∧ (jsGet (transformRegistration raw) "gdpr_consent"
      = JSValue.str (boolStr (jsGet raw "gdpr_consent")))
  ∧ boolStr (JSValue.bool true) = "Yes"
  ∧ boolStr (JSValue.bool false) = "No"
  ∧ boolStr JSValue.null = ""
  ∧ boolStr JSValue.undef = ""
  ∧ (∀ s, boolStr (JSValue.str s) = "")
  ∧ (∀ s, boolStr (JSValue.num s) = "")
  ∧ (∀ xs, boolStr (JSValue.arr xs) = "")
  ∧ (∀ fs, boolStr (JSValue.obj fs) = "") :=
  ⟨rfl, rfl, rfl, rfl, rfl, rfl, rfl, rfl, rfl, rfl, rfl, rfl, rfl, rfl, rfl, rfl, rfl,
   fun _ => rfl, fun _ => rfl, fun _ => rfl, fun _ => rfl⟩

/-- Helper: when `transformAbstracts` returns a list, that list has the
input's length and is the index-wise image under `transformAbstract`. -/
theorem transformAbstracts_some_spec :
    ∀ rs out, transformAbstracts rs = some out →
      out.length = rs.length ∧ ∀ i : Nat, out[i]? = (rs[i]?).bind transformAbstract := by
  intro rs
  induction rs with
  | nil =>
      intro out h
      simp only [transformAbstracts, Option.some.injEq] at h
      subst h
      exact ⟨rfl, fun i => by simp⟩
  | cons r rs ih =>
      intro out h
      simp only [transformAbstracts] at h
      cases ha : transformAbstract r with
      | none => rw [ha] at h; exact absurd h (by simp)
      | some o =>
          cases hb : transformAbstracts rs with
          | none => rw [ha, hb] at h; exact absurd h (by simp)
          | some os =>
              rw [ha, hb] at h
              simp only [Option.some.injEq] at h
              subst h
              obtain ⟨hl, hi⟩ := ih os hb
              refine ⟨by simp [hl], fun i => ?_⟩
              cases i with
              | zero => simp [ha]
              | succ n => simp [hi n]

/-- Helper: the same index-wise characterization for `transformPayments`. -/
theorem transformPayments_some_spec :
    ∀ rs out, transformPayments rs = some out →
      out.length = rs.length ∧ ∀ i : Nat, out[i]? = (rs[i]?).bind transformPayment := by
  intro rs
  induction rs with
  | nil =>
      intro out h
      simp only [transformPayments, Option.some.injEq] at h
      subst h
      exact ⟨rfl, fun i => by simp⟩
  | cons r rs ih =>
      intro out h
      simp only [transformPayments] at h
      cases ha : transformPayment r with
      | none => rw [ha] at h; exact absurd h (by simp)
      | some o =>
          cases hb : transformPayments rs with
          | none => rw [ha, hb] at h; exact absurd h (by simp)
          | some os =>
              rw [ha, hb] at h
              simp only [Option.some.injEq] at h
              subst h
              obtain ⟨hl, hi⟩ := ih os hb
              refine ⟨by simp [hl], fun i => ?_⟩
              cases i with
              | zero => simp [ha]
              | succ n => simp [hi n]

/-- C6: each batch normalizer is length-preserving and order-preserving,
mapping index-for-index through the corresponding single-record normalizer
(for the two throwing normalizers, whenever the batch returns at all). -/
theorem batch_normalizers_indexwise (rs : List JSObj) (outA outP : List JSObj) :
    ((transformRows rs).length = rs.length
      ∧ ∀ i : Nat, (transformRows rs)[i]? = (rs[i]?).map transformRow)
  ∧ ((transformRegistrations rs).length = rs.length
      ∧ ∀ i : Nat, (transformRegistrations rs)[i]? = (rs[i]?).map transformRegistration)
  ∧ (transformAbstracts rs = some outA →
      outA.length = rs.length ∧ ∀ i : Nat, outA[i]? = (rs[i]?).bind transformAbstract)
  ∧ (transformPayments rs = some outP →
      outP.length = rs.length ∧ ∀ i : Nat, outP[i]? = (rs[i]?).bind transformPayment) := by
  refine ⟨⟨?_, ?_⟩, ⟨?_, ?_⟩, ?_, ?_⟩
  · exact List.length_map rs transformRow
  · intro i; exact List.getElem?_map transformRow rs i
  · exact List.length_map rs transformRegistration
  · intro i; exact List.getElem?_map transformRegistration rs i
  · exact transformAbstracts_some_spec rs outA
  · exact transformPayments_some_spec rs outP

/-- Witness for C6: a concrete two-row batch keeps both rows. -/
theorem batch_normalizers_indexwise_witness :
    ((transformAbstracts [[("title", JSValue.str "T")], []]).getD []).length = 2
  ∧ ((transformPayments [[("title", JSValue.str "T")], []]).getD []).length = 2 := by
  have h := batch_normalizers_indexwise [[("title", JSValue.str "T")], []]
      ((transformAbstracts [[("title", JSValue.str "T")], []]).getD [])
      ((transformPayments [[("title", JSValue.str "T")], []]).getD [])
  exact ⟨(h.2.2.1 rfl).1, (h.2.2.2 rfl).1⟩

/-- C1 fails as stated: at an abstract record whose `file_path` is the number
`1` — truthy but not a string — the single-record normalizer calls `.replace`
on a value without that method and throws a `TypeError` instead of returning
a record (modelled by `none`); the same happens for payment receipts. -/
theorem transformAbstract_throws_counterexample :
    transformAbstract [("file_path", JSValue.num "1")] = none := rfl

/-- C1 amended: `transformRow` and `transformRegistration` are total and
populate every declared column key with a value that is never `undefined`;
`transformAbstract` and `transformPayment` do the same provided the record's
`file_path`, when truthy, is a string (a truthy non-string `file_path` throws
a `TypeError`). -/
theorem normalizers_total_and_complete (raw : JSObj) :
    (∀ c ∈ DISPLAY_COLUMNS, jsGet (transformRow raw) c.key ≠ JSValue.undef)
  ∧ (∀ c ∈ REGISTRATION_COLUMNS, jsGet (transformRegistration raw) c.key ≠ JSValue.undef)
  ∧ ((truthy (jsGet raw "file_path") = true → ∃ t, jsGet raw "file_path" = JSValue.str t) →
      ∃ out, transformAbstract raw = some out
        ∧ ∀ c ∈ ABSTRACT_COLUMNS, jsGet out c.key ≠ JSValue.undef)
  ∧ ((truthy (jsGet raw "file_path") = true → ∃ t, jsGet raw "file_path" = JSValue.str t) →
      ∃ out, transformPayment raw = some out
        ∧ ∀ c ∈ PAYMENT_COLUMNS, jsGet out c.key ≠ JSValue.undef) := by
  refine ⟨?_, ?_, ?_, ?_⟩
  · intro c hc
    fin_cases hc <;> first | exact jsOr_ne_undef _ | exact fun h => JSValue.noConfusion h
  · intro c hc
    fin_cases hc <;> first | exact jsOr_ne_undef _ | exact fun h => JSValue.noConfusion h
  · intro hfp
    have hscrut : ∃ hf, (if truthy (jsGet raw "file_path") then fileLabel (jsGet raw "file_path")
        else some "") = some hf := by
      by_cases ht : truthy (jsGet raw "file_path") = true
      · obtain ⟨t, hts⟩ := hfp ht
        refine ⟨lastSegmentOr t, ?_⟩
        rw [if_pos ht, hts]
        rw [hts] at ht
        unfold fileLabel
        simp only [ht, Bool.not_true, Bool.false_eq_true, if_false]
      · exact ⟨"", by rw [if_neg ht]⟩
    obtain ⟨hf, hhf⟩ := hscrut
    refine ⟨[("id", jsOr (jsGet raw "id")),
             ("created_at", jsOr (jsGet raw "created_at")),
             ("first_name", jsOr (jsGet raw "first_name")),
             ("last_name", jsOr (jsGet raw "last_name")),
             ("email", jsOr (jsGet raw "email")),
             ("affiliation", jsOr (jsGet raw "affiliation")),
             ("title", jsOr (jsGet raw "title")),
             ("session", jsOr (jsGet raw "session")),
             ("co_authors", jsOr (jsGet raw "co_authors")),
             ("abstract_text", jsOr (jsGet raw "abstract_text")),
             ("notes", jsOr (jsGet raw "notes")),
             ("has_file", JSValue.str hf),
             ("_file_path", jsOr (jsGet raw "file_path"))], ?_, ?_⟩
    · unfold transformAbstract
      rw [hhf]
    · intro c hc
      fin_cases hc <;> first | exact jsOr_ne_undef _ | exact fun h => JSValue.noConfusion h
  · intro hfp
    have hscrut : ∃ hf, (if truthy (jsGet raw "file_path") then fileLabel (jsGet raw "file_path")
        else some "") = some hf := by
      by_cases ht : truthy (jsGet raw "file_path") = true
      · obtain ⟨t, hts⟩ := hfp ht
        refine ⟨lastSegmentOr t, ?_⟩
        rw [if_pos ht, hts]
        rw [hts] at ht
        unfold fileLabel
        simp only [ht, Bool.not_true, Bool.false_eq_true, if_false]
      · exact ⟨"", by rw [if_neg ht]⟩
    obtain ⟨hf, hhf⟩ := hscrut
    refine ⟨[("id", jsOr (jsGet raw "id")),
             ("created_at", jsOr (jsGet raw "created_at")),
             ("email", jsOr (jsGet raw "email")),
             ("receipt_type", jsOr (jsGet raw "receipt_type")),
             ("notes", jsOr (jsGet raw "notes")),
             ("has_file", JSValue.str hf),
             ("_file_path", jsOr (jsGet raw "file_path"))], ?_, ?_⟩
    · unfold transformPayment
      rw [hhf]
    · intro c hc
      fin_cases hc <;> first | exact jsOr_ne_undef _ | exact fun h => JSValue.noConfusion h

/-- Witness for the amended C1: a record with a string path normalizes to a
defined record, and `transformRow` of the empty record has a defined `id`. -/
theorem normalizers_total_and_complete_witness :
    jsGet (transformRow []) "id" ≠ JSValue.undef
  ∧ (transformAbstract [("file_path", JSValue.str "x/y.pdf")]).isSome = true := by
  have h1 := normalizers_total_and_complete []
  have h2 := normalizers_total_and_complete [("file_path", JSValue.str "x/y.pdf")]
  refine ⟨h1.1 { key := "id", label := "ID" } (by decide), ?_⟩
  obtain ⟨out, hout, -⟩ := h2.2.2.1 (fun _ => ⟨"x/y.pdf", rfl⟩)
  rw [hout]
  rfl

/-- C7: for abstracts and payment receipts, a non-empty string `file_path`
yields the display label `lastSegmentOr s` — the final segment after turning
backslashes into slashes and splitting on `/`, defaulting to the whole path
when that final segment is empty — under `has_file`, and the raw path
unchanged under `_file_path`; an empty, null or absent `file_path` yields the
empty string under both keys, so a present-but-empty path is
indistinguishable from an absent one; and `_file_path` is flagged export-only
in both column lists. -/
theorem file_path_label_and_raw_path (raw : JSObj) (s : String) :
    (jsGet raw "file_path" = JSValue.str s → s ≠ "" →
      ∃ out, transformAbstract raw = some out
        ∧ jsGet out "has_file" = JSValue.str (lastSegmentOr s)
        ∧ jsGet out "_file_path" = JSValue.str s)
  ∧ (jsGet raw "file_path" = JSValue.str s → s ≠ "" →
      ∃ out, transformPayment raw = some out
        ∧ jsGet out "has_file" = JSValue.str (lastSegmentOr s)
        ∧ jsGet out "_file_path" = JSValue.str s)
  ∧ ((jsGet raw "file_path" = JSValue.str "" ∨ jsGet raw "file_path" = JSValue.null
        ∨ jsGet raw "file_path" = JSValue.undef) →
      (∃ out, transformAbstract raw = some out
        ∧ jsGet out "has_file" = JSValue.str "" ∧ jsGet out "_file_path" = JSValue.str "")
      ∧ (∃ out, transformPayment raw = some out
        ∧ jsGet out "has_file" = JSValue.str "" ∧ jsGet out "_file_path" = JSValue.str ""))
  ∧ lastSegmentOr "abstracts/uuid-name.pdf" = "uuid-name.pdf"
  ∧ lastSegmentOr "dir\\sub\\file.pdf" = "file.pdf"
  ∧ (∀ c ∈ ABSTRACT_COLUMNS, c.key = "_file_path" → c.excelOnly = true)
  ∧ (∀ c ∈ PAYMENT_COLUMNS, c.key = "_file_path" → c.excelOnly = true) := by
  have habs : ∀ hf : String,
      (if truthy (jsGet raw "file_path") then fileLabel (jsGet raw "file_path") else some "")
          = some hf →
      ∃ out, transformAbstract raw = some out
        ∧ jsGet out "has_file" = JSValue.str hf
        ∧ jsGet out "_file_path" = jsOr (jsGet raw "file_path") := by
    intro hf hhf
    refine ⟨[("id", jsOr (jsGet raw "id")),
             ("created_at", jsOr (jsGet raw "created_at")),
             ("first_name", jsOr (jsGet raw "first_name")),
             ("last_name", jsOr (jsGet raw "last_name")),
             ("email", jsOr (jsGet raw "email")),
             ("affiliation", jsOr (jsGet raw "affiliation")),
             ("title", jsOr (jsGet raw "title")),
             ("session", jsOr (jsGet raw "session")),
             ("co_authors", jsOr (jsGet raw "co_authors")),
             ("abstract_text", jsOr (jsGet raw "abstract_text")),
             ("notes", jsOr (jsGet raw "notes")),
             ("has_file", JSValue.str hf),
             ("_file_path", jsOr (jsGet raw "file_path"))], ?_, rfl, rfl⟩
    unfold transformAbstract
    rw [hhf]
  have hpay : ∀ hf : String,
      (if truthy (jsGet raw "file_path") then fileLabel (jsGet raw "file_path") else some "")
          = some hf →
      ∃ out, transformPayment raw = some out
        ∧ jsGet out "has_file" = JSValue.str hf
        ∧ jsGet out "_file_path" = jsOr (jsGet raw "file_path") := by
    intro hf hhf
    refine ⟨[("id", jsOr (jsGet raw "id")),
             ("created_at", jsOr (jsGet raw "created_at")),
             ("email", jsOr (jsGet raw "email")),
             ("receipt_type", jsOr (jsGet raw "receipt_type")),
             ("notes", jsOr (jsGet raw "notes")),
             ("has_file", JSValue.str hf),
             ("_file_path", jsOr (jsGet raw "file_path"))], ?_, rfl, rfl⟩
    unfold transformPayment
    rw [hhf]
  refine ⟨?_, ?_, ?_, rfl, rfl, by decide, by decide⟩
  · intro hfp hs
    have ht : truthy (jsGet raw "file_path") = true := by
      rw [hfp]
      simp [truthy, hs]
    have hhf : (if truthy (jsGet raw "file_path") then fileLabel (jsGet raw "file_path")
        else some "") = some (lastSegmentOr s) := by
      rw [if_pos ht, hfp]
      rw [hfp] at ht
      unfold fileLabel
      simp only [ht, Bool.not_true, Bool.false_eq_true, if_false]
    obtain ⟨out, hout, h1, h2⟩ := habs (lastSegmentOr s) hhf
    refine ⟨out, hout, h1, ?_⟩
    rw [h2, hfp]
    unfold jsOr
    rw [hfp] at ht
    rw [if_pos ht]
  · intro hfp hs
    have ht : truthy (jsGet raw "file_path") = true := by
      rw [hfp]
      simp [truthy, hs]
    have hhf : (if truthy (jsGet raw "file_path") then fileLabel (jsGet raw "file_path")
        else some "") = some (lastSegmentOr s) := by
      rw [if_pos ht, hfp]
      rw [hfp] at ht
      unfold fileLabel
      simp only [ht, Bool.not_true, Bool.false_eq_true, if_false]
    obtain ⟨out, hout, h1, h2⟩ := hpay (lastSegmentOr s) hhf
    refine ⟨out, hout, h1, ?_⟩
    rw [h2, hfp]
    unfold jsOr
    rw [hfp] at ht
    rw [if_pos ht]
  · intro hcase
    have ht : truthy (jsGet raw "file_path") = false := by
      rcases hcase with h | h | h <;> rw [h] <;> rfl
    have hhf : (if truthy (jsGet raw "file_path") then fileLabel (jsGet raw "file_path")
        else some "") = some "" := by
      rw [if_neg (by simp [ht])]
    have hor : jsOr (jsGet raw "file_path") = JSValue.str "" := by
      unfold jsOr
      rw [if_neg (by simp [ht])]
    constructor
    · obtain ⟨out, hout, h1, h2⟩ := habs "" hhf
      exact ⟨out, hout, h1, by rw [h2, hor]⟩
    · obtain ⟨out, hout, h1, h2⟩ := hpay "" hhf
      exact ⟨out, hout, h1, by rw [h2, hor]⟩

/-- Witness for C7 at the spec's example path. -/
theorem file_path_label_and_raw_path_witness :
    (transformAbstract [("file_path", JSValue.str "abstracts/uuid-name.pdf")]).isSome = true
  ∧ lastSegmentOr "abstracts/uuid-name.pdf" = "uuid-name.pdf" := by
  have h := file_path_label_and_raw_path
      [("file_path", JSValue.str "abstracts/uuid-name.pdf")] "abstracts/uuid-name.pdf"
  obtain ⟨out, hout, -, -⟩ := h.1 rfl (by decide)
  exact ⟨by rw [hout]; rfl, h.2.2.2.1⟩

/-- Helper: a string differing from the empty string has nonempty character
data. -/
theorem data_ne_nil_of_ne_empty (s : String) (h : s ≠ "") : s.data ≠ [] := by
  intro hd
  apply h
  have hmk : s = String.mk s.data := rfl
  rw [hmk, hd]

/-- C3: `flattenOrganizer` always emits exactly the five prefixed keys, in
the fixed order email, country, lastName, firstName, affiliation; a string
input that is non-empty after trimming and fails to parse as JSON yields the
empty string for every sub-field without an exception; for an object input,
a sub-field carried with a non-nullish value appears coerced with
`String(·)`, a nullish or missing sub-field becomes the empty string; and
the spec's concrete example evaluates as stated. -/
theorem flattenOrganizer_spec :
    (∀ blob pfx, (flattenOrganizer blob pfx).map Prod.fst
        = ORGANIZER_FIELDS.map (fun k => pfx ++ "_" ++ k))
  ∧ (∀ s pfx, jsTrim s ≠ "" → jsonParse (jsTrim s) = none →
      flattenOrganizer (JSValue.str s) pfx
        = ORGANIZER_FIELDS.map (fun k => (pfx ++ "_" ++ k, "")))
  ∧ (∀ fs pfx k, k ∈ ORGANIZER_FIELDS → notNullish (jsGet fs k) = true →
      (pfx ++ "_" ++ k, jsToString (jsGet fs k)) ∈ flattenOrganizer (JSValue.obj fs) pfx)
  ∧ (∀ fs pfx k, k ∈ ORGANIZER_FIELDS → notNullish (jsGet fs k) = false →
      (pfx ++ "_" ++ k, "") ∈ flattenOrganizer (JSValue.obj fs) pfx)
  ∧ flattenOrganizer (JSValue.obj [("email", JSValue.str "a@b.com")]) "p"
      = [("p_email", "a@b.com"), ("p_country", ""), ("p_lastName", ""), ("p_firstName", ""),
         ("p_affiliation", "")] := by
  refine ⟨?_, ?_, ?_, ?_, ?_⟩
  · intro blob pfx
    simp [flattenOrganizer, List.map_map, Function.comp]
  · intro s pfx htrim hparse
    have hlen : 0 < (jsTrim s).data.length :=
      List.length_pos.mpr (data_ne_nil_of_ne_empty _ htrim)
    simp [flattenOrganizer, hparse, hlen, truthy]
  · intro fs pfx k hk hnn
    simp only [flattenOrganizer]
    refine List.mem_map.mpr ⟨k, hk, ?_⟩
    simp [truthy, jsIndex, hnn]
  · intro fs pfx k hk hnn
    simp only [flattenOrganizer]
    refine List.mem_map.mpr ⟨k, hk, ?_⟩
    simp [truthy, jsIndex, hnn]
  · have hstep : flattenOrganizer (JSValue.obj [("email", JSValue.str "a@b.com")]) "p"
        = [("p_email", jsToString (JSValue.str "a@b.com")), ("p_country", ""), ("p_lastName", ""),
           ("p_firstName", ""), ("p_affiliation", "")] := rfl
    rw [hstep, jsToString.eq_def]

/-- Witness for C3: the malformed blob `"{not json"` flattens to all-empty
sub-fields and the spec's object example flattens as stated. -/
theorem flattenOrganizer_spec_witness :
    flattenOrganizer (JSValue.str "\x7bnot json") "p"
      = [("p_email", ""), ("p_country", ""), ("p_lastName", ""), ("p_firstName", ""),
         ("p_affiliation", "")]
  ∧ flattenOrganizer (JSValue.obj [("email", JSValue.str "a@b.com")]) "p"
      = [("p_email", "a@b.com"), ("p_country", ""), ("p_lastName", ""), ("p_firstName", ""),
         ("p_affiliation", "")] := by
  have h := flattenOrganizer_spec
  exact ⟨(h.2.1 "\x7bnot json" "p" (by decide) rfl).trans (by decide), h.2.2.2.2⟩

/-- C10: inputs outside the three accepted shapes still flatten to exactly
the five prefixed keys, all empty, with no exception: a string that parses as
JSON but carries none of the organizer sub-fields non-nullishly (a number, a
quoted string, an array, or an object without those fields), a string that is
empty after trimming, and a non-string non-object value. -/
theorem flattenOrganizer_non_record_inputs :
    (∀ s pfx v, jsTrim s ≠ "" → jsonParse (jsTrim s) = some v →
      (∀ k ∈ ORGANIZER_FIELDS, notNullish (jsIndex v k) = false) →
      flattenOrganizer (JSValue.str s) pfx
        = ORGANIZER_FIELDS.map (fun k => (pfx ++ "_" ++ k, "")))
  ∧ (∀ s pfx, jsTrim s = "" →
      flattenOrganizer (JSValue.str s) pfx
        = ORGANIZER_FIELDS.map (fun k => (pfx ++ "_" ++ k, "")))
  ∧ (∀ pfx b, flattenOrganizer (JSValue.bool b) pfx
        = ORGANIZER_FIELDS.map (fun k => (pfx ++ "_" ++ k, "")))
  ∧ (∀ pfx n, flattenOrganizer (JSValue.num n) pfx
        = ORGANIZER_FIELDS.map (fun k => (pfx ++ "_" ++ k, ""))) := by
  refine ⟨?_, ?_, ?_, ?_⟩
  · intro s pfx v htrim hparse hnn
    have hlen : 0 < (jsTrim s).data.length :=
      List.length_pos.mpr (data_ne_nil_of_ne_empty _ htrim)
    simp only [flattenOrganizer, hparse, hlen, if_true, gt_iff_lt]
    refine List.map_congr_left ?_
    intro k hk
    simp [hnn k hk]
  · intro s pfx htrim
    simp [flattenOrganizer, htrim, truthy]
  · intro pfx b
    simp [flattenOrganizer, truthy]
  · intro pfx n
    simp [flattenOrganizer, truthy]

/-- Witness for C10: the JSON-valid non-record string `"42"`, a
whitespace-only string, and a bare boolean all flatten to the five empty
prefixed keys. -/
theorem flattenOrganizer_non_record_inputs_witness :
    flattenOrganizer (JSValue.str "42") "q"
      = [("q_email", ""), ("q_country", ""), ("q_lastName", ""), ("q_firstName", ""),
         ("q_affiliation", "")]
  ∧ flattenOrganizer (JSValue.str " ") "q"
      = [("q_email", ""), ("q_country", ""), ("q_lastName", ""), ("q_firstName", ""),
         ("q_affiliation", "")]
  ∧ flattenOrganizer (JSValue.bool true) "q"
      = [("q_email", ""), ("q_country", ""), ("q_lastName", ""), ("q_firstName", ""),
         ("q_affiliation", "")] := by
  have h := flattenOrganizer_non_record_inputs
  refine ⟨?_, ?_, ?_⟩
  · exact (h.1 "42" "q" (JSValue.num "42") (by decide) rfl (by decide)).trans (by decide)
  · exact (h.2.1 " " "q" rfl).trans (by decide)
  · exact (h.2.2.1 "q" true).trans (by decide)

/-- C4: `normaliseKeywords` resolves in three tiers and never throws: nullish
values give `""`; an array is joined with `", "` (with the join's recurrence
spelled out); a string whose trimmed form starts with `[` is JSON-decoded and
joined when that yields an array, and is returned verbatim — the original,
untrimmed string — when decoding fails or yields a non-array; any other
string is returned unmodified; any other value gets its generic string
coercion. -/
theorem normaliseKeywords_three_tiers :
    (normaliseKeywords JSValue.null = "" ∧ normaliseKeywords JSValue.undef = "")
  ∧ (∀ xs, normaliseKeywords (JSValue.arr xs) = jsJoin ", " xs)
  ∧ (jsJoin ", " [] = ""
      ∧ (∀ x, jsJoin ", " [x] = jsElemStr x)
      ∧ (∀ x y ys, jsJoin ", " (x :: y :: ys) = jsElemStr x ++ ", " ++ jsJoin ", " (y :: ys)))
  ∧ (∀ s xs, headIsBracket (jsTrim s) = true →
      jsonParse (jsTrim s) = some (JSValue.arr xs) →
      normaliseKeywords (JSValue.str s) = jsJoin ", " xs)
  ∧ (∀ s, headIsBracket (jsTrim s) = true → jsonParse (jsTrim s) = none →
      normaliseKeywords (JSValue.str s) = s)
  ∧ (∀ s v, headIsBracket (jsTrim s) = true → jsonParse (jsTrim s) = some v →
      (∀ xs, v ≠ JSValue.arr xs) → normaliseKeywords (JSValue.str s) = s)
  ∧ (∀ s, headIsBracket (jsTrim s) = false → normaliseKeywords (JSValue.str s) = s)
  ∧ (∀ n, normaliseKeywords (JSValue.num n) = jsToString (JSValue.num n))
  ∧ (∀ b, normaliseKeywords (JSValue.bool b) = jsToString (JSValue.bool b))
  ∧ (∀ fs, normaliseKeywords (JSValue.obj fs) = jsToString (JSValue.obj fs)) := by
  refine ⟨⟨rfl, rfl⟩, fun xs => rfl, ⟨?_, ?_, ?_⟩, ?_, ?_, ?_, ?_,
      fun n => rfl, fun b => rfl, fun fs => rfl⟩
  · rw [jsJoin.eq_def]
  · intro x
    cases x <;> rw [jsJoin.eq_def] <;> rfl
  · intro x y ys
    cases x <;> rw [jsJoin.eq_def] <;> rfl
  · intro s xs hhead hparse
    simp only [normaliseKeywords, hhead, hparse, if_true]
  · intro s hhead hparse
    simp only [normaliseKeywords, hhead, hparse, if_true]
  · intro s v hhead hparse hv
    cases v with
    | arr xs => exact absurd rfl (hv xs)
    | undef => simp only [normaliseKeywords, hhead, hparse, if_true]
    | null => simp only [normaliseKeywords, hhead, hparse, if_true]
    | bool b => simp only [normaliseKeywords, hhead, hparse, if_true]
    | num n => simp only [normaliseKeywords, hhead, hparse, if_true]
    | str t => simp only [normaliseKeywords, hhead, hparse, if_true]
    | obj fs => simp only [normaliseKeywords, hhead, hparse, if_true]
  · intro s hhead
    simp only [normaliseKeywords, hhead, if_false, Bool.false_eq_true]

/-- Witness for C4 at the spec's four examples. -/
theorem normaliseKeywords_three_tiers_witness :
    normaliseKeywords (JSValue.str "[\"a\",\"b\"]") = "a, b"
  ∧ normaliseKeywords (JSValue.str "[oops") = "[oops"
  ∧ normaliseKeywords (JSValue.str "plain text") = "plain text"
  ∧ normaliseKeywords (JSValue.arr [JSValue.str "a", JSValue.str "b"]) = "a, b" := by
  have h := normaliseKeywords_three_tiers
  refine ⟨?_, ?_, ?_, ?_⟩
  · have ht := h.2.2.2.1 "[\"a\",\"b\"]" [JSValue.str "a", JSValue.str "b"] rfl rfl
    rw [ht]
    simp [jsJoin.eq_def, jsToString.eq_def]
  · exact h.2.2.2.2.1 "[oops" rfl rfl
  · exact h.2.2.2.2.2.2.1 "plain text" rfl
  · have ht := h.2.1 [JSValue.str "a", JSValue.str "b"]
    rw [ht]
    simp [jsJoin.eq_def, jsToString.eq_def]

/-- Helper: each processed row adds exactly one archive entry or one
recorded failure. -/
theorem attachmentLoop_count (f : DlRow → Option Bytes) (en fn : DlRow → String) :
    ∀ (rows : List DlRow) (acc : List ZipEntry × List String),
      (attachmentLoop f en fn rows acc).1.length + (attachmentLoop f en fn rows acc).2.length
        = acc.1.length + acc.2.length + rows.length := by
  intro rows
  induction rows with
  | nil => intro acc; simp [attachmentLoop]
  | cons r rs ih =>
      intro acc
      cases hf : f r with
      | some b =>
          simp only [attachmentLoop, hf]
          rw [ih]
          simp [List.length_append]
          omega
      | none =>
          simp only [attachmentLoop, hf]
          rw [ih]
          simp [List.length_append]
          omega

/-- Helper: the failure list only grows along the loop. -/
theorem attachmentLoop_fail_mono (f : DlRow → Option Bytes) (en fn : DlRow → String) :
    ∀ (rows : List DlRow) (acc : List ZipEntry × List String) (x : String),
      x ∈ acc.2 → x ∈ (attachmentLoop f en fn rows acc).2 := by
  intro rows
  induction rows with
  | nil => intro acc x hx; simpa [attachmentLoop] using hx
  | cons r rs ih =>
      intro acc x hx
      cases hf : f r with
      | some b =>
          simp only [attachmentLoop, hf]
          exact ih _ x hx
      | none =>
          simp only [attachmentLoop, hf]
          exact ih _ x (List.mem_append_left _ hx)

/-- Helper: a row whose fetch fails gets its failure name recorded, and the
loop keeps processing the remaining rows. -/
theorem attachmentLoop_fail_mem (f : DlRow → Option Bytes) (en fn : DlRow → String) :
    ∀ (rows : List DlRow) (acc : List ZipEntry × List String) (r : DlRow),
      r ∈ rows → f r = none → fn r ∈ (attachmentLoop f en fn rows acc).2 := by
  intro rows
  induction rows with
  | nil => intro acc r hr; exact absurd hr (by simp)
  | cons r0 rs ih =>
      intro acc r hr hf
      rcases List.mem_cons.mp hr with rfl | hr2
      · rw [show attachmentLoop f en fn (r :: rs) acc
            = attachmentLoop f en fn rs (acc.1, acc.2 ++ [fn r]) by
          simp only [attachmentLoop, hf]]
        exact attachmentLoop_fail_mono f en fn rs _ (fn r) (List.mem_append_right _ (by simp))
      · cases hf0 : f r0 with
        | some b =>
            simp only [attachmentLoop, hf0]
            exact ih _ r hr2 hf
        | none =>
            simp only [attachmentLoop, hf0]
            exact ih _ r hr2 hf

/-- Helper: every archive entry produced by the loop is either inherited
from the accumulator or named by `entryName` for some processed row. -/
theorem attachmentLoop_entries_shape (f : DlRow → Option Bytes) (en fn : DlRow → String) :
    ∀ (rows : List DlRow) (acc : List ZipEntry × List String) (e : ZipEntry),
      e ∈ (attachmentLoop f en fn rows acc).1 →
      e ∈ acc.1 ∨ ∃ r ∈ rows, e.path = en r := by
  intro rows
  induction rows with
  | nil => intro acc e he; exact Or.inl (by simpa [attachmentLoop] using he)
  | cons r0 rs ih =>
      intro acc e he
      cases hf : f r0 with
      | some b =>
          rw [show attachmentLoop f en fn (r0 :: rs) acc
              = attachmentLoop f en fn rs (acc.1 ++ [⟨en r0, ZipContent.bin b⟩], acc.2) by
            simp only [attachmentLoop, hf]] at he
          rcases ih _ e he with h1 | ⟨r, hr, hp⟩
          · rcases List.mem_append.mp h1 with h2 | h2
            · exact Or.inl h2
            · refine Or.inr ⟨r0, by simp, ?_⟩
              have : e = (⟨en r0, ZipContent.bin b⟩ : ZipEntry) := by simpa using h2
              rw [this]
          · exact Or.inr ⟨r, by simp [hr], hp⟩
      | none =>
          rw [show attachmentLoop f en fn (r0 :: rs) acc
              = attachmentLoop f en fn rs (acc.1, acc.2 ++ [fn r0]) by
            simp only [attachmentLoop, hf]] at he
          rcases ih _ e he with h1 | ⟨r, hr, hp⟩
          · exact Or.inl h1
          · exact Or.inr ⟨r, by simp [hr], hp⟩

/-- Helper: strings with different first characters differ. -/
theorem ne_of_data_head (s t : String) (c d : Char)
    (hs : s.data.head? = some c) (ht : t.data.head? = some d) (hcd : c ≠ d) : s ≠ t := by
  intro h
  rw [h, ht] at hs
  exact hcd (by injection hs with h2; exact h2.symm)

/-- Helper: appending on the right keeps the first character. -/
theorem append_data_head (x y : String) (c : Char) (h : x.data.head? = some c) :
    (x ++ y).data.head? = some c := by
  rw [String.data_append]
  cases hx : x.data with
  | nil => rw [hx] at h; simp at h
  | cons a l =>
      rw [hx] at h
      simp only [List.head?] at h
      simpa using h

/-- Helper: the failure list of the export is the failure list after the two
attachment loops, whether or not a manifest was appended. -/
theorem downloadZipEntries_snd (world : String → String → FetchWorld) (xlsx : Bytes)
    (abstracts payments : List DlRow) :
    (downloadZipEntries world xlsx abstracts payments).2
      = (payLoopRes world xlsx abstracts payments).2 := by
  unfold downloadZipEntries
  split <;> rfl

/-- C8: an individual attachment failure never aborts the export:
`fetchStorageFile` yields `null` on a signed-URL error, a thrown fetch
exception, or a non-OK response (and the body on an OK response); the export
processes every attachment row — entries plus recorded failures account for
all rows with files — records each failing path in the failure list, and
adds the `DOWNLOAD_ERRORS.txt` manifest exactly when at least one failure
occurred. -/
theorem zip_export_partial_failure :
    (∀ msg, fetchStorageFile (FetchWorld.signedUrlError msg) = none)
  ∧ fetchStorageFile FetchWorld.fetchException = none
  ∧ (∀ st b, fetchStorageFile (FetchWorld.response false st b) = none)
  ∧ (∀ st b, fetchStorageFile (FetchWorld.response true st b) = some b)
  ∧ (∀ world xlsx abstracts payments,
      (downloadZipEntries world xlsx abstracts payments).1.length
        + (downloadZipEntries world xlsx abstracts payments).2.length
        = 1 + (abstracts.filter (fun r => !(r.filePath == ""))).length
            + (payments.filter (fun r => !(r.filePath == ""))).length
            + (if (downloadZipEntries world xlsx abstracts payments).2 = [] then 0 else 1))
  ∧ (∀ world xlsx abstracts payments r, r ∈ abstracts → ¬(r.filePath = "") →
      fetchStorageFile (world "abstracts" r.filePath) = none →
      ("abstracts/" ++ r.filePath) ∈ (downloadZipEntries world xlsx abstracts payments).2)
  ∧ (∀ world xlsx abstracts payments r, r ∈ payments → ¬(r.filePath = "") →
      fetchStorageFile (world "payment-receipts" r.filePath) = none →
      ("payment_receipts/" ++ safeEmail r.email ++ "/" ++ r.filePath)
        ∈ (downloadZipEntries world xlsx abstracts payments).2)
  ∧ (∀ world xlsx abstracts payments,
      (∃ e ∈ (downloadZipEntries world xlsx abstracts payments).1,
          e.path = "DOWNLOAD_ERRORS.txt")
        ↔ (downloadZipEntries world xlsx abstracts payments).2 ≠ []) := by
  have hcount : ∀ (world : String → String → FetchWorld) (xlsx : Bytes)
      (abstracts payments : List DlRow),
      (payLoopRes world xlsx abstracts payments).1.length
        + (payLoopRes world xlsx abstracts payments).2.length
        = 1 + (abstracts.filter (fun r => !(r.filePath == ""))).length
            + (payments.filter (fun r => !(r.filePath == ""))).length := by
    intro world xlsx abstracts payments
    unfold payLoopRes absLoopRes
    rw [attachmentLoop_count, attachmentLoop_count]
    simp
  refine ⟨fun msg => rfl, rfl, fun st b => rfl, fun st b => rfl, ?_, ?_, ?_, ?_⟩
  · intro world xlsx abstracts payments
    by_cases hnil : (payLoopRes world xlsx abstracts payments).2 = []
    · have heq : downloadZipEntries world xlsx abstracts payments
          = payLoopRes world xlsx abstracts payments := by
        unfold downloadZipEntries
        rw [if_pos (by simp [hnil])]
      rw [heq, if_pos hnil]
      have := hcount world xlsx abstracts payments
      omega
    · have heq : downloadZipEntries world xlsx abstracts payments
          = ((payLoopRes world xlsx abstracts payments).1
              ++ [⟨"DOWNLOAD_ERRORS.txt",
                   ZipContent.text (errorNote (payLoopRes world xlsx abstracts payments).2)⟩],
             (payLoopRes world xlsx abstracts payments).2) := by
        unfold downloadZipEntries
        rw [if_neg (by simp [hnil])]
      rw [heq]
      simp only [List.length_append, List.length_cons, List.length_nil]
      rw [if_neg hnil]
      have := hcount world xlsx abstracts payments
      omega
  · intro world xlsx abstracts payments r hr hne hf
    rw [downloadZipEntries_snd]
    unfold payLoopRes
    apply attachmentLoop_fail_mono
    unfold absLoopRes
    exact attachmentLoop_fail_mem _ _ _ _ _ r
      (List.mem_filter.mpr ⟨hr, by simp [hne]⟩) hf
  · intro world xlsx abstracts payments r hr hne hf
    rw [downloadZipEntries_snd]
    unfold payLoopRes
    exact attachmentLoop_fail_mem _ _ _ _ _ r
      (List.mem_filter.mpr ⟨hr, by simp [hne]⟩) hf
  · intro world xlsx abstracts payments
    constructor
    · rintro ⟨e, he, hpath⟩
      intro hnil
      rw [downloadZipEntries_snd] at hnil
      have heq : downloadZipEntries world xlsx abstracts payments
          = payLoopRes world xlsx abstracts payments := by
        unfold downloadZipEntries
        rw [if_pos (by simp [hnil])]
      rw [heq] at he
      unfold payLoopRes at he
      rcases attachmentLoop_entries_shape _ _ _ _ _ e he with h1 | ⟨rr, hrr, hp⟩
      · unfold absLoopRes at h1
        rcases attachmentLoop_entries_shape _ _ _ _ _ e h1 with h2 | ⟨rr, hrr, hp⟩
        · simp at h2
          rw [h2] at hpath
          simp at hpath
        · rw [hp] at hpath
          exact absurd hpath
            (ne_of_data_head _ _ 'a' 'D' (append_data_head _ _ _ rfl) rfl (by decide))
      · rw [hp] at hpath
        exact absurd hpath
          (ne_of_data_head _ _ 'p' 'D'
            (append_data_head _ _ _ (append_data_head _ _ _ (append_data_head _ _ _ rfl)))
            rfl (by decide))
    · intro hne
      rw [downloadZipEntries_snd] at hne
      have heq : downloadZipEntries world xlsx abstracts payments
          = ((payLoopRes world xlsx abstracts payments).1
              ++ [⟨"DOWNLOAD_ERRORS.txt",
                   ZipContent.text (errorNote (payLoopRes world xlsx abstracts payments).2)⟩],
             (payLoopRes world xlsx abstracts payments).2) := by
        unfold downloadZipEntries
        rw [if_neg (by simp [hne])]
      rw [heq]
      refine ⟨⟨"DOWNLOAD_ERRORS.txt",
          ZipContent.text (errorNote (payLoopRes world xlsx abstracts payments).2)⟩,
        List.mem_append_right _ (by simp), rfl⟩

/-- Witness for C8: in a world where `bad.pdf` cannot be fetched, the export
still runs, records `abstracts/bad.pdf`, and carries a manifest. -/
theorem zip_export_partial_failure_witness :
    fetchStorageFile (demoWorld "abstracts" "bad.pdf") = none
  ∧ ("abstracts/bad.pdf")
      ∈ (downloadZipEntries demoWorld [7] [⟨"a@b", "ok.pdf"⟩, ⟨"a@b", "bad.pdf"⟩] []).2
  ∧ (downloadZipEntries demoWorld [7] [⟨"a@b", "ok.pdf"⟩, ⟨"a@b", "bad.pdf"⟩] []).2 ≠ [] := by
  have h := zip_export_partial_failure
  have h6 := h.2.2.2.2.2.1 demoWorld [7] [⟨"a@b", "ok.pdf"⟩, ⟨"a@b", "bad.pdf"⟩] []
      ⟨"a@b", "bad.pdf"⟩ (by decide) (by decide) rfl
  have h8 := (h.2.2.2.2.2.2.2 demoWorld [7] [⟨"a@b", "ok.pdf"⟩, ⟨"a@b", "bad.pdf"⟩] []).mp
      ⟨⟨"DOWNLOAD_ERRORS.txt", ZipContent.text (errorNote ["abstracts/bad.pdf"])⟩, by decide, rfl⟩
  exact ⟨rfl, h6, h8⟩

/-- Helper: the two global replacements of `safeEmail` compose to the
per-character sanitization map. -/
theorem replace_two_pass (l : List Char) :
    replaceBadChars (replaceAtSign l)
      = l.foldr (fun c acc =>
          (if c == '@' then ['_', 'a', 't', '_'] else if emailCharOk c then [c] else ['_']) ++ acc)
          [] := by
  induction l with
  | nil => rfl
  | cons c cs ih =>
      simp only [replaceAtSign, List.foldr_cons]
      by_cases hc : c == '@'
      · rw [if_pos hc, if_pos hc]
        have h1 : emailCharOk '_' = true := by decide
        have h2 : emailCharOk 'a' = true := by decide
        have h3 : emailCharOk 't' = true := by decide
        simp only [List.cons_append, List.nil_append, replaceBadChars, h1, h2, h3, if_true, ih]
      · rw [if_neg hc, if_neg hc]
        simp only [replaceBadChars]
        by_cases hok : emailCharOk c
        · rw [if_pos hok, if_pos hok]
          simp only [List.cons_append, List.nil_append, ih]
        · rw [if_neg hok, if_neg hok]
          simp only [List.cons_append, List.nil_append, ih]

/-- Helper: after the second replacement pass every character lies in the
allowed class. -/
theorem replaceBadChars_ok (l : List Char) : ∀ c ∈ replaceBadChars l, emailCharOk c = true := by
  induction l with
  | nil => intro c hc; simp [replaceBadChars] at hc
  | cons a l ih =>
      intro c hc
      simp only [replaceBadChars, List.mem_cons] at hc
      rcases hc with rfl | hc
      · by_cases hok : emailCharOk a
        · rw [if_pos hok]
          exact hok
        · rw [if_neg hok]
          decide
      · exact ih c hc

/-- C9 amended: for every non-empty owner email, `safeEmail` is exactly the
per-character sanitization of the claim (`@` to `_at_`, other characters
outside `[A-Za-z0-9._+-]` to `_`; the empty email instead becomes
`"unknown"`); its output always stays inside the allowed class; the abstracts
archive filename joins the sanitized email with the basename using `_`; and
every payment-receipt entry is nested under one folder per sanitized owner
email. -/
theorem safeEmail_sanitization_amended (email : String) :
    (email ≠ "" → safeEmail email = safeEmailSpec email)
  ∧ (∀ c ∈ (safeEmail email).data, emailCharOk c = true)
  ∧ (∀ p, zipFilename email p = safeEmail email ++ "_" ++ storageBasename p)
  ∧ (∀ world xlsx abstracts payments e,
      e ∈ (downloadZipEntries world xlsx abstracts payments).1 →
      e.path = "conference_data.xlsx"
      ∨ (∃ r ∈ abstracts, e.path = "abstracts/" ++ zipFilename r.email r.filePath)
      ∨ (∃ r ∈ payments,
          e.path = "payment_receipts/" ++ safeEmail r.email ++ "/" ++ storageBasename r.filePath)
      ∨ e.path = "DOWNLOAD_ERRORS.txt") := by
  refine ⟨?_, ?_, fun p => rfl, ?_⟩
  · intro hne
    unfold safeEmail safeEmailSpec
    rw [if_neg (by simp [hne])]
    rw [replace_two_pass]
  · intro c hc
    have hdata : (safeEmail email).data
        = replaceBadChars (replaceAtSign (if email == "" then "unknown" else email).data) := rfl
    rw [hdata] at hc
    exact replaceBadChars_ok _ c hc
  · intro world xlsx abstracts payments e he
    have hsplit : e ∈ (payLoopRes world xlsx abstracts payments).1
        ∨ e.path = "DOWNLOAD_ERRORS.txt" := by
      unfold downloadZipEntries at he
      split at he
      · exact Or.inl he
      · rcases List.mem_append.mp he with h1 | h1
        · exact Or.inl h1
        · have h2 : e = (⟨"DOWNLOAD_ERRORS.txt",
              ZipContent.text (errorNote (payLoopRes world xlsx abstracts payments).2)⟩ : ZipEntry) := by
            simpa using h1
          exact Or.inr (by rw [h2])
    rcases hsplit with he1 | hm
    · unfold payLoopRes at he1
      rcases attachmentLoop_entries_shape _ _ _ _ _ e he1 with h1 | ⟨r, hr, hp⟩
      · unfold absLoopRes at h1
        rcases attachmentLoop_entries_shape _ _ _ _ _ e h1 with h2 | ⟨r, hr, hp⟩
        · have h3 : e = (⟨"conference_data.xlsx", ZipContent.bin xlsx⟩ : ZipEntry) := by
            simpa using h2
          exact Or.inl (by rw [h3])
        · exact Or.inr (Or.inl ⟨r, (List.mem_filter.mp hr).1, hp⟩)
      · exact Or.inr (Or.inr (Or.inl ⟨r, (List.mem_filter.mp hr).1, hp⟩))
    · exact Or.inr (Or.inr (Or.inr hm))

/-- C9 fails as stated: on the empty owner email the code returns
`"unknown"`, while the claimed character replacement returns `""`. -/
theorem safeEmail_empty_counterexample :
    safeEmail "" = "unknown" ∧ safeEmailSpec "" = "" ∧ ("unknown" : String) ≠ "" :=
  ⟨rfl, rfl, by decide⟩

/-- Witness for C9 on a concrete email with a space and an `@`. -/
theorem safeEmail_sanitization_amended_witness :
    safeEmail "john doe@example.com" = "john_doe_at_example.com"
  ∧ safeEmailSpec "john doe@example.com" = "john_doe_at_example.com" := by
  have h := safeEmail_sanitization_amended "john doe@example.com"
  have h1 := h.1 (by decide)
  exact ⟨by decide, by rw [← h1]; decide⟩
